import Mathlib

/-!
Shallow embedding of the omnizm CLI (src/cli/cli.ts and the second CLI
variant in src/unnamed/part_000) and proofs about the claims of its
specification.  File-system effects are modelled by explicit state: the
`ui` source directory is an association list of file names to contents,
lockfile and config existence are booleans, the package-manager
subprocess outcome and per-path write failures are oracles, and every
operation returns the trace of shell commands and file writes it
performed.
-/

namespace Omnizm

/-- Lowercase conversion mirroring the toLowerCase method of JavaScript for the ASCII
component names this program compares. -/
def strToLower (s : String) : String := ⟨s.data.map Char.toLower⟩

/-- One file of a component: mirrors the ComponentFile interface of cli.ts. -/
structure ComponentFile where
  name : String
  content : String
deriving DecidableEq

/-- A component: its files and declared dependency identifiers, mirroring
the Component interface of cli.ts. -/
structure Component where
  files : List ComponentFile
  dependencies : List String
deriving DecidableEq

/-- The file-system state the CLI observes: the entries of the ui source
directory (file name, content) in readdir order, the existence of the two
lockfiles, and the existence of components.yml. -/
structure FS where
  ui : List (String × String)
  yarnLock : Bool
  pnpmLock : Bool
  configExists : Bool

/-- First-match association lookup in a directory listing. -/
def lookupFile : List (String × String) → String → Option String
  | [], _ => none
  | (k, v) :: rest, key => if k == key then some v else lookupFile rest key

/-- A component name is valid when the file ui/<name>.tsx exists. -/
def validName (fs : FS) (n : String) : Bool :=
  (lookupFile fs.ui (n ++ ".tsx")).isSome

/-- Content of ui/<name>.tsx (defaulting to the empty string when absent;
only used where the file exists). -/
def contentOf (fs : FS) (n : String) : String :=
  (lookupFile fs.ui (n ++ ".tsx")).getD ""

/-- The fixed baseline dependency list of readComponentFromUI. -/
def baselineDeps : List String :=
  ["class-variance-authority", "tailwind-merge", "clsx"]

/-- The single special-cased dependency of the button component. -/
def radixDep : String := "@radix-ui/react-slot"

/-- The special-case test of cli.ts: componentName lowercased compared to the literal button. -/
def isButton (n : String) : Bool := strToLower n == "button"

/-- Dependency list returned by readComponentFromUI for a given name:
the baseline list, extended (by push) with the radix dependency when the
name matches the button special case. -/
def compDeps (n : String) : List String :=
  baselineDeps ++ (if isButton n then [radixDep] else [])

/-- readComponentFromUI of cli.ts: fails when ui/<name>.tsx does not
exist; otherwise returns the file content as the single declared file
<name>.tsx plus the dependency list. -/
def readComponentFromUI (fs : FS) (componentName : String) : Except String Component :=
  match lookupFile fs.ui (componentName ++ ".tsx") with
  | none =>
      .error ("Failed to read component " ++ componentName ++
        ": Component file not found at ui/" ++ componentName ++ ".tsx")
  | some content =>
      .ok { files := [{ name := componentName ++ ".tsx", content := content }],
            dependencies := compDeps componentName }

/-- Removal of the first occurrence of ".tsx" in a character list,
mirroring String.prototype.replace of JavaScript with a string pattern
(first occurrence only). -/
def removeFirstTsx : List Char → List Char
  | [] => []
  | c :: cs =>
      if List.isPrefixOf ['.', 't', 's', 'x'] (c :: cs) then cs.drop 3
      else c :: removeFirstTsx cs

/-- Stripping of the extension as done by file.replace in cli.ts. -/
def stripTsxOnce (s : String) : String := ⟨removeFirstTsx s.data⟩

/-- Test for a file name ending in the component extension, as file.endsWith in cli.ts. -/
def endsWithTsx (s : String) : Bool := List.isSuffixOf ['.', 't', 's', 'x'] s.data

/-- listAvailableComponents of cli.ts: readdir of ui/, keep files ending
in .tsx, strip the first .tsx occurrence from each name. -/
def listAvailableComponents (fs : FS) : List String :=
  ((fs.ui.map Prod.fst).filter (fun file => endsWithTsx file)).map stripTsxOnce

/-- The three package managers detectPackageManager can return. -/
inductive PackageManager
  | npm
  | yarn
  | pnpm
deriving DecidableEq

/-- Display name of a package manager, used in error messages. -/
def pmName : PackageManager → String
  | .npm => "npm"
  | .yarn => "yarn"
  | .pnpm => "pnpm"

/-- detectPackageManager of cli.ts: yarn.lock first, then pnpm-lock.yaml,
else npm. -/
def detectPackageManager (fs : FS) : PackageManager :=
  if fs.yarnLock then .yarn
  else if fs.pnpmLock then .pnpm
  else .npm

/-- One executed shell command together with its stdio mode (execSync is
called with stdio inherited). -/
structure ExecSpec where
  cmd : String
  stdioInherit : Bool
deriving DecidableEq

/-- The per-manager install command template of installDependencies, with
the dependency identifiers joined space-separated. -/
def installCommand (packageManager : PackageManager) (dependencies : List String) : String :=
  match packageManager with
  | .npm => "npm install --save " ++ String.intercalate " " dependencies
  | .yarn => "yarn add " ++ String.intercalate " " dependencies
  | .pnpm => "pnpm add " ++ String.intercalate " " dependencies

/-- installDependencies of cli.ts / part_000: no-op on an empty list,
otherwise executes exactly one shell command (returned as the trace) and
fails when the subprocess fails (`installOk` is the subprocess oracle). -/
def installDependencies (fs : FS) (installOk : Bool) (dependencies : List String) :
    List ExecSpec × Except String Unit :=
  if dependencies.length = 0 then ([], .ok ())
  else
    ([{ cmd := installCommand (detectPackageManager fs) dependencies, stdioInherit := true }],
     if installOk then .ok ()
     else .error ("Failed to install dependencies using " ++ pmName (detectPackageManager fs)))

/-- Insertion into a JavaScript Set modelled as an insertion-ordered
duplicate-free list: Set.add appends only when absent. -/
def setAdd (s : List String) (x : String) : List String :=
  if x ∈ s then s else s ++ [x]

/-- forEach-insertion of a whole list into a JavaScript Set. -/
def setUnionList (s : List String) (xs : List String) : List String :=
  xs.foldl setAdd s

/-- The dependency-collection loop shared by cli.ts add and part_000
installComponents: for each name, read the component (a read failure
propagates), insert its dependencies into the general set, and insert the
radix dependency into the special-cased set when the name matches the
button test. -/
def aggregateDeps (fs : FS) : List String → List String → List String →
    Except String (List String × List String)
  | [], allD, radixD => .ok (allD, radixD)
  | name :: rest, allD, radixD =>
      match readComponentFromUI fs name with
      | .error e => .error e
      | .ok comp =>
          aggregateDeps fs rest (setUnionList allD comp.dependencies)
            (if isButton name then setAdd radixD radixDep else radixD)

/-- Writing the files of one component in order: stops at the first write
the oracle `w` fails, returning the writes performed and whether all
succeeded. -/
def writeAll (w : String → Bool) : List ComponentFile → List (String × String) × Bool
  | [] => ([], true)
  | f :: rest =>
      if w f.name then ([], false)
      else
        let r := writeAll w rest
        ((f.name, f.content) :: r.1, r.2)

/-- Outcome of the copy stage: the installed and failed name lists and
the successful writes (file name under components/ui, content), all in
order. -/
structure CopyResult where
  installed : List String
  failed : List String
  writes : List (String × String)
deriving DecidableEq

/-- One iteration of the copy loop: re-read the component; on a read
error record the name as failed; otherwise write its files, recording the
name as installed when every write succeeded and as failed otherwise.
Writes performed before a failure persist. -/
def copyOne (fs : FS) (w : String → Bool) (acc : CopyResult) (componentName : String) :
    CopyResult :=
  match readComponentFromUI fs componentName with
  | .error _ => { acc with failed := acc.failed ++ [componentName] }
  | .ok comp =>
      let r := writeAll w comp.files
      if r.2 then
        { acc with writes := acc.writes ++ r.1, installed := acc.installed ++ [componentName] }
      else
        { acc with writes := acc.writes ++ r.1, failed := acc.failed ++ [componentName] }

/-- The copy stage shared by cli.ts add and part_000 installComponents:
each selected component is attempted independently in selection order. -/
def copyComponents (fs : FS) (w : String → Bool) (components : List String) : CopyResult :=
  components.foldl (copyOne fs w) { installed := [], failed := [], writes := [] }

/-- Observable outcome of a whole add/installComponents run: the exit
code when process.exit was called, the executed shell commands, the
successful file writes, the two summary name lists and the two dependency
sets. -/
structure RunResult where
  exitCode : Option Nat
  commands : List ExecSpec
  writes : List (String × String)
  installed : List String
  failed : List String
  allDeps : List String
  radixDeps : List String
deriving DecidableEq

/-- Result of a run that aborted via cancel / process.exit(1) before any
command or write. -/
def abortRun : RunResult :=
  { exitCode := some 1, commands := [], writes := [], installed := [], failed := [],
    allDeps := [], radixDeps := [] }

/-- installComponents of part_000: validate the names against the
available set (exit 1 listing them when any is unrecognized), aggregate
dependencies (a read failure propagates to the outer catch, exit 1),
install the general then the special-cased set — a failure here is NOT
caught locally and propagates to the outer catch, exit 1 before any copy
— then run the copy stage. -/
def installComponents (fs : FS) (installOk : Bool) (w : String → Bool)
    (components : List String) : RunResult :=
  let availableComponents := listAvailableComponents fs
  let invalidComponents := components.filter (fun comp => ! availableComponents.contains comp)
  if 0 < invalidComponents.length then abortRun
  else
    match aggregateDeps fs components [] [] with
    | .error _ => abortRun
    | .ok (allD, radixD) =>
        match (if 0 < allD.length then installDependencies fs installOk allD
               else ([], Except.ok ())) with
        | (cmds1, .error _) =>
            { abortRun with commands := cmds1, allDeps := allD, radixDeps := radixD }
        | (cmds1, .ok _) =>
            match (if 0 < radixD.length then installDependencies fs installOk radixD
                   else ([], Except.ok ())) with
            | (cmds2, .error _) =>
                { abortRun with commands := cmds1 ++ cmds2, allDeps := allD, radixDeps := radixD }
            | (cmds2, .ok _) =>
                let cr := copyComponents fs w components
                { exitCode := none, commands := cmds1 ++ cmds2, writes := cr.writes,
                  installed := cr.installed, failed := cr.failed,
                  allDeps := allD, radixDeps := radixD }

/-- Trace of a guarded install call whose failure is swallowed: models
`if (set.size > 0) try { await installDependencies(...) } catch { warn }`
of cli.ts add, where only the executed command remains observable. -/
def guardedInstallTrace (fs : FS) (installOk : Bool) (deps : List String) : List ExecSpec :=
  (if 0 < deps.length then installDependencies fs installOk deps else ([], Except.ok ())).1

/-- Continuation of the cli.ts add pipeline on the aggregation outcome:
a read failure reaches the outer catch (exit 1); otherwise the two
dependency sets are installed with failures caught and only logged (only
the command trace remains observable) and the copy stage always runs. -/
def addInteractiveCore (fs : FS) (installOk : Bool) (w : String → Bool)
    (selected : List String) : Except String (List String × List String) → RunResult
  | .error _ => abortRun
  | .ok (allD, radixD) =>
      let cmds1 := guardedInstallTrace fs installOk allD
      let cmds2 := guardedInstallTrace fs installOk radixD
      let cr := copyComponents fs w selected
      { exitCode := none, commands := cmds1 ++ cmds2, writes := cr.writes,
        installed := cr.installed, failed := cr.failed,
        allDeps := allD, radixDeps := radixD }

/-- The add pipeline of src/cli/cli.ts after a successful multiselect
returning `selected`. -/
def addInteractive (fs : FS) (installOk : Bool) (w : String → Bool)
    (selected : List String) : RunResult :=
  addInteractiveCore fs installOk w selected (aggregateDeps fs selected [] [])

/-- Name of the config file written by init. -/
def CONFIG_FILE : String := "components.yml"

/-- Config template written by init for the selected stack. -/
def getDefaultConfig (stack : String) : String :=
  "# UI Component Configuration\nstack: " ++ stack ++
  "\nstyle: default\ntailwind:\n  config: tailwind.config.js\n  css: src/styles/globals.css\naliases:\n  components: src/components\n  utils: src/lib/utils\n"

/-- Observable outcome of an init run: the final process exit code and
the files written. -/
structure InitResult where
  exitCode : Nat
  writes : List (String × String)
deriving DecidableEq

/-- init of cli.ts: a cancelled stack prompt exits 1; otherwise, when
components.yml already exists the run returns without writing (the
process then exits 0); otherwise the config is written (exit 0), and a
write failure is caught and exits 1. -/
def init (fs : FS) (cancelled : Bool) (stack : String) (writeOk : Bool) : InitResult :=
  if cancelled then { exitCode := 1, writes := [] }
  else if fs.configExists then { exitCode := 0, writes := [] }
  else if writeOk then { exitCode := 0, writes := [(CONFIG_FILE, getDefaultConfig stack)] }
  else { exitCode := 1, writes := [] }

/-- Overwriting update of a directory modelled as a partial map from file
names to contents: the semantics of fs writeFile into components/ui. -/
def setFileF (t : String → Option String) (k v : String) : String → Option String :=
  fun q => if q = k then some v else t q

/-- Applying a list of writes to a target directory in order (later
writes overwrite earlier ones and any pre-existing file). -/
def applyWrites (t : String → Option String) (ws : List (String × String)) :
    String → Option String :=
  ws.foldl (fun acc e => setFileF acc e.1 e.2) t

/-- Whether an Except value is a success. -/
def exceptIsOk {α : Type} : Except String α → Bool
  | .ok _ => true
  | .error _ => false

/-- Per-name outcome of the copy stage: the component copies successfully
exactly when its source file exists and the write of <name>.tsx does not
fail. -/
def copySucceeds (fs : FS) (w : String → Bool) (n : String) : Bool :=
  validName fs n && ! w (n ++ ".tsx")

/-- Concrete file system holding only the button component. -/
def fsButton : FS :=
  { ui := [("button.tsx", "BTN")], yarnLock := false, pnpmLock := false, configExists := false }

/-- Concrete file system holding one component named a. -/
def fsA : FS :=
  { ui := [("a.tsx", "CONTENT-A")], yarnLock := false, pnpmLock := false, configExists := false }

/-- Concrete file system holding two components a and b. -/
def fsAB : FS :=
  { ui := [("a.tsx", "CONTENT-A"), ("b.tsx", "CONTENT-B")],
    yarnLock := false, pnpmLock := false, configExists := false }

/-- Concrete file system holding a mixed-case button source file. -/
def fsMixed : FS :=
  { ui := [("BuTtOn.tsx", "MIX")], yarnLock := false, pnpmLock := false, configExists := false }

/-- Concrete empty file system with both lockfiles present. -/
def fsYarnPnpm : FS :=
  { ui := [], yarnLock := true, pnpmLock := true, configExists := false }

/-- Concrete empty file system with no lockfiles. -/
def fsPlain : FS :=
  { ui := [], yarnLock := false, pnpmLock := false, configExists := false }

/-- Concrete empty file system in which components.yml already exists. -/
def fsCfg : FS :=
  { ui := [], yarnLock := false, pnpmLock := false, configExists := true }

/-- Write oracle under which every write succeeds. -/
def wNone : String → Bool := fun _ => false

/-- Write oracle under which exactly the write of a.tsx fails. -/
def wA : String → Bool := fun p => p == "a.tsx"

/-- C3: detect() returns yarn exactly when a yarn lockfile exists
(regardless of a pnpm lockfile), pnpm exactly when no yarn lockfile but a
pnpm lockfile exists, and npm exactly when neither exists; the return
type of detectPackageManager admits no other value. -/
theorem c3_detect_package_manager (fs : FS) :
    (detectPackageManager fs = .yarn ↔ fs.yarnLock = true) ∧
    (detectPackageManager fs = .pnpm ↔ (fs.yarnLock = false ∧ fs.pnpmLock = true)) ∧
    (detectPackageManager fs = .npm ↔ (fs.yarnLock = false ∧ fs.pnpmLock = false)) := by
  obtain ⟨ui, yl, pl, cfg⟩ := fs
  cases yl <;> cases pl <;> simp [detectPackageManager]

/-- Witness for C3 at a concrete file system with both lockfiles. -/
theorem c3_detect_package_manager_witness :
    (detectPackageManager fsYarnPnpm = .yarn ↔ fsYarnPnpm.yarnLock = true) ∧
    (detectPackageManager fsYarnPnpm = .pnpm ↔
      (fsYarnPnpm.yarnLock = false ∧ fsYarnPnpm.pnpmLock = true)) ∧
    (detectPackageManager fsYarnPnpm = .npm ↔
      (fsYarnPnpm.yarnLock = false ∧ fsYarnPnpm.pnpmLock = false)) :=
  c3_detect_package_manager fsYarnPnpm

/-- C5: read(name) fails exactly when no source file ui/<name>.tsx
exists; otherwise it returns the content of that file as the single declared
file plus the dependency list seeded with the fixed baseline set of three
identifiers, extended via the case-insensitive button special case. -/
theorem c5_read_contract (fs : FS) (name : String) :
    (exceptIsOk (readComponentFromUI fs name) = false ↔
      lookupFile fs.ui (name ++ ".tsx") = none) ∧
    (∀ content, lookupFile fs.ui (name ++ ".tsx") = some content →
      readComponentFromUI fs name =
        .ok { files := [{ name := name ++ ".tsx", content := content }],
              dependencies := baselineDeps ++ (if isButton name then [radixDep] else []) }) ∧
    baselineDeps.length = 3 := by
  refine ⟨?_, ?_, rfl⟩
  · cases h : lookupFile fs.ui (name ++ ".tsx") <;>
      simp [readComponentFromUI, h, exceptIsOk]
  · intro content h
    simp [readComponentFromUI, h, compDeps]

/-- Witness for C5: reading the mixed-case button component returns its
content and the baseline dependencies extended with the radix slot
dependency via the case-insensitive comparison. -/
theorem c5_read_contract_witness :
    readComponentFromUI fsMixed "BuTtOn" =
      Except.ok { files := [{ name := "BuTtOn.tsx", content := "MIX" }],
                  dependencies := ["class-variance-authority", "tailwind-merge", "clsx",
                                   "@radix-ui/react-slot"] } := by
  have h := (c5_read_contract fsMixed "BuTtOn").2.1 "MIX" (by decide)
  rw [h]
  rfl

/-- C7: installDependencies is a no-op on an empty dependency list, and
on a non-empty list executes exactly one shell command — the detected
template of the detected manager with all identifiers joined space-separated — with
stdio inherited, failing exactly when the subprocess fails. -/
theorem c7_installer_contract (fs : FS) (installOk : Bool) (deps : List String) :
    (deps = [] → installDependencies fs installOk deps = ([], Except.ok ())) ∧
    (deps ≠ [] →
      installDependencies fs installOk deps =
        ([{ cmd := installCommand (detectPackageManager fs) deps, stdioInherit := true }],
         if installOk then Except.ok ()
         else Except.error ("Failed to install dependencies using " ++
           pmName (detectPackageManager fs)))) := by
  constructor
  · rintro rfl
    rfl
  · intro h
    have hlen : ¬ (deps.length = 0) := by
      simpa [List.length_eq_zero] using h
    simp [installDependencies, hlen]

/-- Witness for C7 at a concrete file system with no lockfiles. -/
theorem c7_installer_contract_witness :
    installDependencies fsPlain true [] = ([], Except.ok ()) ∧
    installDependencies fsPlain true ["left-pad", "is-even"] =
      ([{ cmd := "npm install --save left-pad is-even", stdioInherit := true }],
       Except.ok ()) := by
  constructor
  · exact (c7_installer_contract fsPlain true []).1 rfl
  · have h := (c7_installer_contract fsPlain true ["left-pad", "is-even"]).2 (by decide)
    rw [h]
    rfl

/-- C8: whenever any explicitly supplied component name is not among the
available names, installComponents exits with code 1 and executes no
package-manager command at all. -/
theorem c8_invalid_name_aborts (fs : FS) (installOk : Bool) (w : String → Bool)
    (comps : List String) (c : String) (hc : c ∈ comps)
    (hinv : (listAvailableComponents fs).contains c = false) :
    (installComponents fs installOk w comps).exitCode = some 1 ∧
    (installComponents fs installOk w comps).commands = [] := by
  have hmem : c ∈ comps.filter (fun comp => ! (listAvailableComponents fs).contains comp) :=
    List.mem_filter.mpr ⟨hc, by simp only [hinv, Bool.not_false]⟩
  have hlen :
      0 < (comps.filter (fun comp => ! (listAvailableComponents fs).contains comp)).length :=
    List.length_pos.mpr (List.ne_nil_of_mem hmem)
  unfold installComponents
  rw [if_pos hlen]
  exact ⟨rfl, rfl⟩

/-- Witness for C8: supplying the unknown name bogus aborts with exit
code 1 and an empty command trace. -/
theorem c8_invalid_name_aborts_witness :
    (installComponents fsA true wNone ["bogus"]).exitCode = some 1 ∧
    (installComponents fsA true wNone ["bogus"]).commands = [] :=
  c8_invalid_name_aborts fsA true wNone ["bogus"] "bogus" (by decide) (by decide)

/-- C9 counterexample: a run of init in which components.yml already
exists but the stack prompt is cancelled performs zero writes yet exits
with code 1, not 0. -/
theorem c9_cancelled_init_counterexample :
    fsCfg.configExists = true ∧
    (init fsCfg true "nextjs" true).writes = [] ∧
    (init fsCfg true "nextjs" true).exitCode = 1 := by
  decide

/-- C9 amended: every run of init whose stack prompt is not cancelled
and in which components.yml already exists performs zero file writes and
exits with code 0. -/
theorem c9_init_existing_config_noop (fs : FS) (stack : String) (writeOk : Bool)
    (h : fs.configExists = true) :
    (init fs false stack writeOk).writes = [] ∧
    (init fs false stack writeOk).exitCode = 0 := by
  simp [init, h]

/-- Witness for the amended C9 at a concrete file system whose config
file exists. -/
theorem c9_init_existing_config_noop_witness :
    (init fsCfg false "nextjs" true).writes = [] ∧
    (init fsCfg false "nextjs" true).exitCode = 0 :=
  c9_init_existing_config_noop fsCfg "nextjs" true rfl

/-- Number of files declared by a read result (zero on failure). -/
def declaredFilesCount (r : Except String Component) : Nat :=
  match r with
  | .ok comp => comp.files.length
  | .error _ => 0

/-- Reading a missing component yields the wrapped not-found error. -/
lemma read_of_lookup_none (fs : FS) (n : String)
    (h : lookupFile fs.ui (n ++ ".tsx") = none) :
    readComponentFromUI fs n =
      .error ("Failed to read component " ++ n ++
        ": Component file not found at ui/" ++ n ++ ".tsx") := by
  unfold readComponentFromUI
  rw [h]

/-- Reading an existing component yields its content and dependency list. -/
lemma read_of_lookup_some (fs : FS) (n c : String)
    (h : lookupFile fs.ui (n ++ ".tsx") = some c) :
    readComponentFromUI fs n =
      .ok { files := [{ name := n ++ ".tsx", content := c }],
            dependencies := compDeps n } := by
  unfold readComponentFromUI
  rw [h]

/-- Closed form of the copy loop from an arbitrary accumulator: each name
succeeds exactly when copySucceeds holds, the two name lists are the two
complementary filters of the input in order, and the writes are exactly
one file per installed component. -/
lemma copy_foldl_spec (fs : FS) (w : String → Bool) (l : List String) (acc : CopyResult) :
    List.foldl (copyOne fs w) acc l =
      { installed := acc.installed ++ l.filter (copySucceeds fs w),
        failed := acc.failed ++ l.filter (fun n => ! copySucceeds fs w n),
        writes := acc.writes ++
          (l.filter (copySucceeds fs w)).map (fun n => (n ++ ".tsx", contentOf fs n)) } := by
  induction l generalizing acc with
  | nil => simp
  | cons n rest ih =>
      rw [List.foldl_cons, ih]
      cases hl : lookupFile fs.ui (n ++ ".tsx") with
      | none =>
          have hcs : copySucceeds fs w n = false := by
            simp [copySucceeds, validName, hl]
          have hco : copyOne fs w acc n = { acc with failed := acc.failed ++ [n] } := by
            unfold copyOne
            rw [read_of_lookup_none fs n hl]
          rw [hco]
          simp [hcs, List.filter_cons]
      | some c =>
          have hvn : validName fs n = true := by simp [validName, hl]
          have hcont : contentOf fs n = c := by simp [contentOf, hl]
          cases hw : w (n ++ ".tsx") with
          | true =>
              have hcs : copySucceeds fs w n = false := by
                simp [copySucceeds, hvn, hw]
              have hco : copyOne fs w acc n = { acc with failed := acc.failed ++ [n] } := by
                unfold copyOne
                rw [read_of_lookup_some fs n c hl]
                simp [writeAll, hw]
              rw [hco]
              simp [hcs, List.filter_cons]
          | false =>
              have hcs : copySucceeds fs w n = true := by
                simp [copySucceeds, hvn, hw]
              have hco : copyOne fs w acc n =
                  { acc with writes := acc.writes ++ [(n ++ ".tsx", c)],
                             installed := acc.installed ++ [n] } := by
                unfold copyOne
                rw [read_of_lookup_some fs n c hl]
                simp [writeAll, hw]
              rw [hco]
              simp [hcs, hcont, List.filter_cons]

/-- Closed form of the whole copy stage. -/
lemma copyComponents_spec (fs : FS) (w : String → Bool) (l : List String) :
    copyComponents fs w l =
      { installed := l.filter (copySucceeds fs w),
        failed := l.filter (fun n => ! copySucceeds fs w n),
        writes := (l.filter (copySucceeds fs w)).map
          (fun n => (n ++ ".tsx", contentOf fs n)) } := by
  unfold copyComponents
  rw [copy_foldl_spec]
  simp

/-- C1 counterexample: for the valid selection [a] with the write of
a.tsx failing, the component is successfully read and declares exactly
one file, yet zero files are written — refuting that exactly one file per
declared file is written for each successfully-read component.  The
partition half still holds: the name lands in the failed list. -/
theorem c1_read_ok_without_write_counterexample :
    (listAvailableComponents fsA).contains "a" = true ∧
    exceptIsOk (readComponentFromUI fsA "a") = true ∧
    declaredFilesCount (readComponentFromUI fsA "a") = 1 ∧
    (copyComponents fsA wA ["a"]).installed = [] ∧
    (copyComponents fsA wA ["a"]).failed = ["a"] ∧
    (copyComponents fsA wA ["a"]).writes = [] := by
  decide

/-- C1 amended: for every non-empty selection of valid component names,
the installed and failed lists are complementary filters of the selection
in selection order (every name appears in exactly one of them), and
exactly one file per declared file is written for each component recorded
as installed. -/
theorem c1_copy_partition (fs : FS) (w : String → Bool) (comps : List String)
    (_hne : comps ≠ []) (hv : ∀ c ∈ comps, validName fs c = true) :
    (copyComponents fs w comps).installed = comps.filter (fun n => ! w (n ++ ".tsx")) ∧
    (copyComponents fs w comps).failed = comps.filter (fun n => w (n ++ ".tsx")) ∧
    (copyComponents fs w comps).writes =
      ((copyComponents fs w comps).installed).map
        (fun n => (n ++ ".tsx", contentOf fs n)) := by
  rw [copyComponents_spec]
  refine ⟨?_, ?_, rfl⟩
  · exact List.filter_congr (fun c hc => by simp [copySucceeds, hv c hc])
  · exact List.filter_congr (fun c hc => by simp [copySucceeds, hv c hc])

/-- Witness for the amended C1 at the two-component file system with all
writes succeeding. -/
theorem c1_copy_partition_witness :
    (copyComponents fsAB wNone ["a", "b"]).installed = ["a", "b"] ∧
    (copyComponents fsAB wNone ["a", "b"]).failed = [] ∧
    (copyComponents fsAB wNone ["a", "b"]).writes =
      [("a.tsx", "CONTENT-A"), ("b.tsx", "CONTENT-B")] := by
  have h := c1_copy_partition fsAB wNone ["a", "b"] (by decide) (by decide)
  exact ⟨h.1.trans (by decide), h.2.1.trans (by decide), h.2.2.trans (by rw [h.1]; decide)⟩

/-- Appending the fixed extension is injective on names. -/
lemma append_tsx_inj (a b : String) (h : a ++ ".tsx" = b ++ ".tsx") : a = b := by
  have h2 := congrArg String.data h
  simp only [String.data_append] at h2
  have h3 : a.data = b.data := List.append_cancel_right h2
  exact congrArg String.mk h3

/-- Applying a write list whose entries at key k all carry value v, with
at least one such entry present (or the target already holding v), leaves
value v at k. -/
lemma applyWrites_eq (t : String → Option String) (ws : List (String × String))
    (k v : String) (hall : ∀ e ∈ ws, e.1 = k → e.2 = v)
    (hst : (k, v) ∈ ws ∨ t k = some v) :
    applyWrites t ws k = some v := by
  induction ws generalizing t with
  | nil =>
      rcases hst with h | h
      · cases h
      · simpa [applyWrites] using h
  | cons e rest ih =>
      have step : applyWrites t (e :: rest) = applyWrites (setFileF t e.1 e.2) rest := rfl
      rw [step]
      apply ih
      · intro x hx h1
        exact hall x (List.mem_cons_of_mem e hx) h1
      · rcases hst with h | h
        · rcases List.mem_cons.mp h with h | h
          · right
            have h1 : e.1 = k := by rw [← h]
            have h2 : e.2 = v := by rw [← h]
            simp [setFileF, h1, h2]
          · left
            exact h
        · by_cases hk : k = e.1
          · right
            have h2 : e.2 = v := hall e (List.mem_cons_self e rest) hk.symm
            simp [setFileF, hk, h2]
          · right
            simp [setFileF, hk, h]

/-- C10: every component recorded as installed by the copy stage had its
source file read, its single written file is named <name>.tsx and carries
the source content byte for byte, and after applying the writes of the run to
any initial target directory the file at <name>.tsx holds exactly the
source content (an existing file is overwritten unconditionally). -/
theorem c10_installed_file_matches_source (fs : FS) (w : String → Bool)
    (comps : List String) (name : String) (t : String → Option String)
    (hmem : name ∈ (copyComponents fs w comps).installed) :
    lookupFile fs.ui (name ++ ".tsx") = some (contentOf fs name) ∧
    (name ++ ".tsx", contentOf fs name) ∈ (copyComponents fs w comps).writes ∧
    applyWrites t (copyComponents fs w comps).writes (name ++ ".tsx") =
      some (contentOf fs name) := by
  rw [copyComponents_spec] at hmem ⊢
  have hcs : copySucceeds fs w name = true := (List.mem_filter.mp hmem).2
  have hvalid : validName fs name = true := by
    have h := hcs
    simp only [copySucceeds, Bool.and_eq_true] at h
    exact h.1
  obtain ⟨c, hc⟩ := Option.isSome_iff_exists.mp hvalid
  have hcontent : contentOf fs name = c := by simp [contentOf, hc]
  refine ⟨by rw [hc, hcontent], ?_, ?_⟩
  · exact List.mem_map_of_mem _ hmem
  · apply applyWrites_eq
    · intro e he h1
      obtain ⟨m, hm, hme⟩ := List.mem_map.mp he
      have hm1 : m ++ ".tsx" = name ++ ".tsx" := by
        rw [← hme] at h1
        exact h1
      have hmn : m = name := append_tsx_inj m name hm1
      rw [← hme]
      simp [hmn]
    · left
      exact List.mem_map_of_mem _ hmem

/-- Witness for C10: component a of a two-component batch, applied over a
target directory that already holds a file of the same name. -/
theorem c10_installed_file_matches_source_witness :
    lookupFile fsAB.ui ("a" ++ ".tsx") = some (contentOf fsAB "a") ∧
    ("a" ++ ".tsx", contentOf fsAB "a") ∈ (copyComponents fsAB wNone ["a", "b"]).writes ∧
    applyWrites (fun _ => some "OLD") (copyComponents fsAB wNone ["a", "b"]).writes
      ("a" ++ ".tsx") = some (contentOf fsAB "a") :=
  c10_installed_file_matches_source fsAB wNone ["a", "b"] "a" (fun _ => some "OLD")
    (by decide)

/-- Membership in a Set insertion. -/
lemma mem_setAdd (s : List String) (x y : String) :
    y ∈ setAdd s x ↔ y ∈ s ∨ y = x := by
  unfold setAdd
  by_cases h : x ∈ s
  · simp only [if_pos h]
    constructor
    · exact Or.inl
    · rintro (hy | rfl)
      · exact hy
      · exact h
  · simp [if_neg h]

/-- Inserting a list into a Set preserves the previous members. -/
lemma mem_setUnionList_left (s xs : List String) (y : String) :
    y ∈ s → y ∈ setUnionList s xs := by
  induction xs generalizing s with
  | nil => exact fun h => h
  | cons x rest ih =>
      exact fun h => ih (setAdd s x) ((mem_setAdd s x y).mpr (Or.inl h))

/-- Inserting a list into a Set makes every element of the list a member. -/
lemma mem_setUnionList_right (s xs : List String) (y : String) :
    y ∈ xs → y ∈ setUnionList s xs := by
  induction xs generalizing s with
  | nil => intro h; cases h
  | cons x rest ih =>
      intro h
      rcases List.mem_cons.mp h with rfl | h
      · exact mem_setUnionList_left (setAdd s y) rest y ((mem_setAdd s y y).mpr (Or.inr rfl))
      · exact ih (setAdd s x) h

/-- A successful read always carries the dependency list compDeps. -/
lemma read_ok_deps (fs : FS) (n : String) (comp : Component)
    (h : readComponentFromUI fs n = .ok comp) : comp.dependencies = compDeps n := by
  unfold readComponentFromUI at h
  cases hl : lookupFile fs.ui (n ++ ".tsx") with
  | none => rw [hl] at h; cases h
  | some c => rw [hl] at h; cases h; rfl

/-- Invariant of the aggregation loop: if the special-cased accumulator
is contained in the general accumulator, the same holds of the final
sets, since the radix dependency is also pushed into the own dependency
list of the component whenever it is added to the special-cased set. -/
lemma aggregateDeps_sub (fs : FS) (l : List String) :
    ∀ a r allD radD, (∀ d ∈ r, d ∈ a) →
      aggregateDeps fs l a r = .ok (allD, radD) → ∀ d ∈ radD, d ∈ allD := by
  induction l with
  | nil =>
      intro a r allD radD hsub h
      unfold aggregateDeps at h
      injection h with h1
      injection h1 with ha hr
      subst ha
      subst hr
      exact hsub
  | cons n rest ih =>
      intro a r allD radD hsub h
      unfold aggregateDeps at h
      cases hr : readComponentFromUI fs n with
      | error e => rw [hr] at h; cases h
      | ok comp =>
          rw [hr] at h
          refine ih (setUnionList a comp.dependencies)
            (if isButton n then setAdd r radixDep else r) allD radD ?_ h
          intro d hd
          have hdeps := read_ok_deps fs n comp hr
          by_cases hb : isButton n
          · rw [if_pos hb] at hd
            rcases (mem_setAdd r radixDep d).mp hd with hd | rfl
            · exact mem_setUnionList_left _ _ _ (hsub d hd)
            · refine mem_setUnionList_right _ _ _ ?_
              rw [hdeps]
              unfold compDeps
              rw [if_pos hb]
              simp [radixDep]
          · rw [if_neg hb] at hd
            exact mem_setUnionList_left _ _ _ (hsub d hd)

/-- C4 counterexample: selecting the button component puts the radix slot
dependency into the special-cased set and into the general set at once —
the two sets are not disjoint, so the special-cased subset is not
partitioned from the general set. -/
theorem c4_radix_in_both_sets_counterexample :
    (installComponents fsButton true wNone ["button"]).radixDeps = [radixDep] ∧
    radixDep ∈ (installComponents fsButton true wNone ["button"]).allDeps := by
  decide

/-- C4 amended: the special-cased dependency set is not disjoint from the
general set; instead every dependency collected into the special-cased
set is also a member of the general set. -/
theorem c4_special_subset_of_general (fs : FS) (comps allD radD : List String)
    (h : aggregateDeps fs comps [] [] = .ok (allD, radD)) :
    ∀ d ∈ radD, d ∈ allD :=
  aggregateDeps_sub fs comps [] [] allD radD (fun d hd => absurd hd (List.not_mem_nil d)) h

/-- Witness for the amended C4: the radix dependency of the button batch
is a member of the general set. -/
theorem c4_special_subset_of_general_witness :
    radixDep ∈ ["class-variance-authority", "tailwind-merge", "clsx", "@radix-ui/react-slot"] :=
  c4_special_subset_of_general fsButton ["button"]
    ["class-variance-authority", "tailwind-merge", "clsx", "@radix-ui/react-slot"]
    [radixDep] (by rfl) radixDep (by decide)

/-- Whether any name of a list matches the button special case. -/
def hasButton (l : List String) : Bool := l.any isButton

/-- Shape of the general accumulator after at least one component: the
baseline list, followed by the radix dependency when a button-named
component has been seen. -/
def genAcc (b : Bool) : List String := baselineDeps ++ (if b then [radixDep] else [])

/-- Shape of the special-cased accumulator. -/
def radAcc (b : Bool) : List String := if b then [radixDep] else []

/-- One aggregation step preserves the general accumulator shape. -/
lemma setUnionList_genAcc (b : Bool) (n : String) :
    setUnionList (genAcc b) (compDeps n) = genAcc (b || isButton n) := by
  unfold genAcc compDeps
  cases hb : isButton n <;> cases b <;> decide

/-- One aggregation step preserves the special-cased accumulator shape. -/
lemma radAcc_step (b : Bool) (n : String) :
    (if isButton n then setAdd (radAcc b) radixDep else radAcc b) = radAcc (b || isButton n) := by
  unfold radAcc
  cases hb : isButton n <;> cases b <;> decide

/-- The first aggregation step from the empty general accumulator. -/
lemma setUnionList_nil_compDeps (n : String) :
    setUnionList [] (compDeps n) = genAcc (isButton n) := by
  unfold genAcc compDeps
  cases hb : isButton n <;> decide

/-- The first aggregation step from the empty special-cased accumulator. -/
lemma radAcc_first (n : String) :
    (if isButton n then setAdd [] radixDep else ([] : List String)) = radAcc (isButton n) := by
  unfold radAcc
  cases hb : isButton n <;> decide

/-- Running the aggregation loop over valid names from shaped
accumulators yields the shaped closed form. -/
lemma aggregateDeps_run (fs : FS) (l : List String) :
    (∀ c ∈ l, validName fs c = true) → ∀ b : Bool,
      aggregateDeps fs l (genAcc b) (radAcc b) =
        .ok (genAcc (b || hasButton l), radAcc (b || hasButton l)) := by
  induction l with
  | nil =>
      intro h b
      simp [aggregateDeps, hasButton]
  | cons n rest ih =>
      intro h b
      cases hc : lookupFile fs.ui (n ++ ".tsx") with
      | none =>
          exfalso
          have hx := h n (List.mem_cons_self n rest)
          rw [validName, hc] at hx
          simp at hx
      | some c =>
          have hread := read_of_lookup_some fs n c hc
          unfold aggregateDeps
          rw [hread]
          simp only [setUnionList_genAcc, radAcc_step]
          rw [ih (fun x hx => h x (List.mem_cons_of_mem n hx)) (b || isButton n)]
          have harr : ((b || isButton n) || hasButton rest) = (b || hasButton (n :: rest)) := by
            simp [hasButton, List.any_cons, Bool.or_assoc]
          rw [harr]

/-- Closed form of the aggregation over a batch of valid names: the two
resulting sets depend only on whether the batch is empty and whether it
contains a button-named component. -/
lemma aggregateDeps_closed (fs : FS) (l : List String)
    (h : ∀ c ∈ l, validName fs c = true) :
    aggregateDeps fs l [] [] =
      .ok (if l.isEmpty then [] else genAcc (hasButton l),
           if l.isEmpty then [] else radAcc (hasButton l)) := by
  cases l with
  | nil => simp [aggregateDeps]
  | cons n rest =>
      cases hc : lookupFile fs.ui (n ++ ".tsx") with
      | none =>
          exfalso
          have hx := h n (List.mem_cons_self n rest)
          rw [validName, hc] at hx
          simp at hx
      | some c =>
          have hread := read_of_lookup_some fs n c hc
          unfold aggregateDeps
          rw [hread]
          simp only [setUnionList_nil_compDeps, radAcc_first]
          rw [aggregateDeps_run fs rest (fun x hx => h x (List.mem_cons_of_mem n hx))
            (isButton n)]
          simp [hasButton, List.any_cons]

/-- C6: dependency aggregation is order-independent and idempotent — two
selections with the same underlying set of names (all valid on an
unchanged file system) aggregate to identical general and special-cased
dependency sets. -/
theorem c6_aggregation_order_independent (fs : FS) (l1 l2 : List String)
    (hv : ∀ c ∈ l1, validName fs c = true)
    (hm : ∀ x, x ∈ l1 ↔ x ∈ l2) :
    aggregateDeps fs l1 [] [] = aggregateDeps fs l2 [] [] := by
  have hv2 : ∀ c ∈ l2, validName fs c = true := fun c hc => hv c ((hm c).mpr hc)
  rw [aggregateDeps_closed fs l1 hv, aggregateDeps_closed fs l2 hv2]
  have hempty : l1.isEmpty = l2.isEmpty := by
    cases l1 with
    | nil =>
        cases l2 with
        | nil => rfl
        | cons y ys => exact absurd ((hm y).mpr (List.mem_cons_self y ys)) (List.not_mem_nil y)
    | cons x xs =>
        cases l2 with
        | nil => exact absurd ((hm x).mp (List.mem_cons_self x xs)) (List.not_mem_nil x)
        | cons y ys => rfl
  have hbtn : hasButton l1 = hasButton l2 := by
    unfold hasButton
    cases h1 : l1.any isButton <;> cases h2 : l2.any isButton
    · rfl
    · exfalso
      obtain ⟨x, hx, hbx⟩ := List.any_eq_true.mp h2
      have hcontra : l1.any isButton = true := List.any_eq_true.mpr ⟨x, (hm x).mpr hx, hbx⟩
      rw [h1] at hcontra
      cases hcontra
    · exfalso
      obtain ⟨x, hx, hbx⟩ := List.any_eq_true.mp h1
      have hcontra : l2.any isButton = true := List.any_eq_true.mpr ⟨x, (hm x).mp hx, hbx⟩
      rw [h2] at hcontra
      cases hcontra
    · rfl
  rw [hempty, hbtn]

/-- Witness for C6: aggregating [a, b] and [b, a] over the two-component
file system yields the same result. -/
theorem c6_aggregation_order_independent_witness :
    aggregateDeps fsAB ["a", "b"] [] [] = aggregateDeps fsAB ["b", "a"] [] [] :=
  c6_aggregation_order_independent fsAB ["a", "b"] ["b", "a"] (by decide)
    (fun x => by
      constructor <;> intro h <;> rcases List.mem_cons.mp h with rfl | h <;> simp_all)

/-- The command trace of installDependencies does not depend on whether
the subprocess succeeds. -/
lemma installDependencies_fst (fs : FS) (ok1 ok2 : Bool) (deps : List String) :
    (installDependencies fs ok1 deps).1 = (installDependencies fs ok2 deps).1 := by
  unfold installDependencies
  by_cases h : deps.length = 0 <;> simp [h]

/-- The trace of a guarded install call does not depend on whether the
subprocess succeeds. -/
lemma guardedInstallTrace_ok_irrel (fs : FS) (ok1 ok2 : Bool) (deps : List String) :
    guardedInstallTrace fs ok1 deps = guardedInstallTrace fs ok2 deps := by
  unfold guardedInstallTrace
  by_cases h : 0 < deps.length
  · rw [if_pos h, if_pos h]
    exact installDependencies_fst fs ok1 ok2 deps
  · rw [if_neg h, if_neg h]

/-- C2 counterexample: a run of installComponents (the direct install
path of the second CLI variant) on the valid selection [button] whose
package-manager subprocess fails exits with code 1, writes no file and
records nothing installed or failed — the installer failure aborts the
invocation before the copy stage instead of being downgraded to a
warning. -/
theorem c2_install_failure_aborts_counterexample :
    (listAvailableComponents fsButton).contains "button" = true ∧
    (installComponents fsButton false wNone ["button"]).exitCode = some 1 ∧
    (installComponents fsButton false wNone ["button"]).commands ≠ [] ∧
    (installComponents fsButton false wNone ["button"]).writes = [] ∧
    (installComponents fsButton false wNone ["button"]).installed = [] ∧
    (installComponents fsButton false wNone ["button"]).failed = [] := by
  decide

/-- C2 amended: in the interactive add pipeline of src/cli/cli.ts the
installer failure is caught and only logged — the run is observably
identical to one whose installation succeeds, and whenever aggregation
succeeds the run does not abort and the copy stage runs to completion.
In the installComponents path of the second variant, however, an
installer failure aborts before copying (see the counterexample). -/
theorem c2_interactive_add_ignores_install_failure (fs : FS) (w : String → Bool)
    (sel : List String) :
    addInteractive fs false w sel = addInteractive fs true w sel ∧
    (exceptIsOk (aggregateDeps fs sel [] []) = true →
      (addInteractive fs false w sel).exitCode = none ∧
      (addInteractive fs false w sel).installed = (copyComponents fs w sel).installed ∧
      (addInteractive fs false w sel).failed = (copyComponents fs w sel).failed ∧
      (addInteractive fs false w sel).writes = (copyComponents fs w sel).writes) := by
  constructor
  · unfold addInteractive
    cases hagg : aggregateDeps fs sel [] [] with
    | error e => rfl
    | ok p =>
        obtain ⟨allD, radD⟩ := p
        simp only [addInteractiveCore]
        rw [guardedInstallTrace_ok_irrel fs false true allD,
            guardedInstallTrace_ok_irrel fs false true radD]
  · intro hok
    unfold addInteractive
    cases hagg : aggregateDeps fs sel [] [] with
    | error e =>
        rw [hagg] at hok
        simp [exceptIsOk] at hok
    | ok p =>
        obtain ⟨allD, radD⟩ := p
        simp only [addInteractiveCore]
        exact ⟨trivial, trivial, trivial, trivial⟩

/-- Witness for the amended C2 at the button file system: with the
subprocess failing, the run equals the successful-subprocess run, does
not abort, and its copy-stage outcome is that of copyComponents. -/
theorem c2_interactive_add_ignores_install_failure_witness :
    addInteractive fsButton false wNone ["button"] =
      addInteractive fsButton true wNone ["button"] ∧
    (addInteractive fsButton false wNone ["button"]).exitCode = none ∧
    (addInteractive fsButton false wNone ["button"]).installed =
      (copyComponents fsButton wNone ["button"]).installed ∧
    (addInteractive fsButton false wNone ["button"]).failed =
      (copyComponents fsButton wNone ["button"]).failed ∧
    (addInteractive fsButton false wNone ["button"]).writes =
      (copyComponents fsButton wNone ["button"]).writes := by
  have h := c2_interactive_add_ignores_install_failure fsButton wNone ["button"]
  exact ⟨h.1, h.2 (by decide)⟩

end Omnizm
